import Mathlib

/-!
Verification of the tool-orchestration engine of the fast-mcp-client
repository (file src/client.py) against its natural-language
specification.

The embedding translates the Python source shallowly:
* Python values appearing as message content are modelled by the mutual
  inductives PyVal / PyList / PyDict (strings, integers, lists, dicts as
  association lists in insertion order — Python dicts preserve insertion
  order and have unique keys);
* in-place mutation of the messages / responses lists becomes explicit
  state passing through LoopState;
* raised exceptions become the error side of Except; the error value
  carries the LoopState at raise time because the Python messages list
  aliases the entry of the global conversations store, so every append
  performed before the exception stays visible in the store;
* the external llms model client (not part of the sources) is a
  parameter: Engine.replies i is the parsed reply the model produces at
  model-query step i (Except.error means the client call raised), and
  Engine.parseTR is its parse_tool_result function.
-/

mutual

/-- Python values as they appear in message content: text leaves, integer
leaves, lists, and dicts (association lists in insertion order). -/
inductive PyVal where
  | str : String → PyVal
  | int : Int → PyVal
  | list : PyList → PyVal
  | dict : PyDict → PyVal
deriving Repr

/-- A Python list of PyVal. -/
inductive PyList where
  | nil : PyList
  | cons : PyVal → PyList → PyList
deriving Repr

/-- A Python dict with string keys, kept in insertion order. -/
inductive PyDict where
  | nil : PyDict
  | cons : String → PyVal → PyDict → PyDict
deriving Repr

end

deriving instance DecidableEq for PyVal, PyList, PyDict

/-- Python d.get(key) / d[key] lookup on a dict: first entry whose key
matches (keys are unique in a Python dict, so first = only). -/
def lookupD : PyDict → String → Option PyVal
  | .nil, _ => none
  | .cons k v rest, key => if k == key then some v else lookupD rest key

mutual

/-- Python str(obj): identity on strings, decimal on ints, repr-style
rendering of containers (as CPython str of a list or dict). -/
def pyStr : PyVal → String
  | .str s => s
  | .int n => toString n
  | .list xs => "[" ++ String.intercalate ", " (pyReprL xs) ++ "]"
  | .dict d => "\x7b" ++ String.intercalate ", " (pyReprD d) ++ "\x7d"

/-- Python repr(obj): strings gain quotes, containers render recursively. -/
def pyRepr : PyVal → String
  | .str s => "\x27" ++ s ++ "\x27"
  | .int n => toString n
  | .list xs => "[" ++ String.intercalate ", " (pyReprL xs) ++ "]"
  | .dict d => "\x7b" ++ String.intercalate ", " (pyReprD d) ++ "\x7d"

/-- The repr of each element of a Python list. -/
def pyReprL : PyList → List String
  | .nil => []
  | .cons x xs => pyRepr x :: pyReprL xs

/-- The repr of each entry of a Python dict. -/
def pyReprD : PyDict → List String
  | .nil => []
  | .cons k v rest => ("\x27" ++ k ++ "\x27: " ++ pyRepr v) :: pyReprD rest

end

/-- Python truthiness of a PyVal (used by lines such as
if parsed_response.content): empty string, zero, empty list and empty
dict are falsy. -/
def pyTruthy : PyVal → Bool
  | .str s => s != ""
  | .int n => n != 0
  | .list .nil => false
  | .list _ => true
  | .dict .nil => false
  | .dict _ => true

/-- The element test isinstance(x, dict) and x.get('type') == 'tool_result'
of the first list branch of flatten_to_string. -/
def isToolResultDict : PyVal → Bool
  | .dict d =>
      match lookupD d "type" with
      | some (.str s) => s == "tool_result"
      | _ => false
  | _ => false

/-- Whether every element of the list passes isToolResultDict
(Python all(...), true on the empty list). -/
def allToolResult : PyList → Bool
  | .nil => true
  | .cons x xs => isToolResultDict x && allToolResult xs

mutual

/-- The function flatten_to_string of src/client.py lines 167-179,
translated clause by clause: a list all of whose elements are
tool_result dicts flattens each element's content value (default '',
which flattens to the empty string); any other list flattens
elementwise; a dict whose sole entry is keyed "text" yields str of that
value; a tool_result dict having a content key flattens that content;
any other dict flattens its values in order; every other leaf yields
str(obj).  Joins are by newline. -/
def flatten_to_string : PyVal → String
  | .str s => s
  | .int n => toString n
  | .list xs =>
      if allToolResult xs then
        String.intercalate "\n" (flattenTR xs)
      else
        String.intercalate "\n" (flattenL xs)
  | .dict (.cons "text" v .nil) => pyStr v
  | .dict d =>
      if (match lookupD d "type" with
          | some (.str s) => s == "tool_result"
          | _ => false)
          && (lookupD d "content").isSome then
        flattenContent d
      else
        String.intercalate "\n" (flattenVals d)

/-- Per-element flattening of a list that passed allToolResult:
flatten_to_string(x.get('content', '')).  A missing content key means
flattening the default '', i.e. the empty string.  The non-dict arm is
unreachable because the guard requires every element to be a dict. -/
def flattenTR : PyList → List String
  | .nil => []
  | .cons (.dict d) xs => flattenContentD d :: flattenTR xs
  | .cons x xs => flatten_to_string x :: flattenTR xs

/-- flatten_to_string(d.get('content', '')) fused with the dict lookup. -/
def flattenContentD : PyDict → String
  | .nil => ""
  | .cons k v rest => if k == "content" then flatten_to_string v else flattenContentD rest

/-- flatten_to_string(d['content']) fused with the dict lookup; only
invoked under a guard guaranteeing the key is present, so the nil arm
is dead code. -/
def flattenContent : PyDict → String
  | .nil => ""
  | .cons k v rest => if k == "content" then flatten_to_string v else flattenContent rest

/-- Elementwise flattening of a general list. -/
def flattenL : PyList → List String
  | .nil => []
  | .cons x xs => flatten_to_string x :: flattenL xs

/-- flatten_to_string(v) for each value of a dict, in insertion order. -/
def flattenVals : PyDict → List String
  | .nil => []
  | .cons _ v rest => flatten_to_string v :: flattenVals rest

end

/-! ## Session Manager (class MCPClientManager of src/client.py) -/

/-- A provider configuration (class ServerConfig of src/client.py). -/
structure ServerConfig where
  command : String
  args : List String
  env : Option (List (String × String))
deriving DecidableEq, Repr

/-- One entry of MCPClientManager.tools, built by load_tools: a dict with
keys name, description, server and input_schema. -/
structure ToolDict where
  name : String
  description : String
  server : String
  input_schema : PyVal
deriving DecidableEq, Repr

/-- One entry of a provider's reply to list_tools: a tool with a name, a
description and an input schema. -/
structure ToolSpec where
  name : String
  description : String
  inputSchema : PyVal
deriving DecidableEq, Repr

/-- Body of MCPClientManager.initialize_sessions (lines 74-90): one
connection attempt per configured provider, in order; the attempt
argument abstracts the stdio_client / ClientSession.initialize exchange
(none = the try block raised, so the provider is skipped and the loop
continues).  The result is the list of keys of self.sessions. -/
def initialize_sessions (configs : List (String × ServerConfig))
    (attempt : String → ServerConfig → Option Unit) : List String :=
  match configs with
  | [] => []
  | (server_name, config) :: rest =>
      match attempt server_name config with
      | some _ => server_name :: initialize_sessions rest attempt
      | none => initialize_sessions rest attempt

/-- Body of MCPClientManager.load_tools (lines 92-106): for each live
session, query its tools and extend self.tools; a failing query
(Except.error) contributes nothing and the loop continues. -/
def load_tools (sessions : List String)
    (listTools : String → Except String (List ToolSpec)) : List ToolDict :=
  match sessions with
  | [] => []
  | server_name :: rest =>
      (match listTools server_name with
       | .ok ts => ts.map (fun t => ⟨t.name, t.description, server_name, t.inputSchema⟩)
       | .error _ => []) ++ load_tools rest listTools

/-- Result of MCPClientManager.execute_tool: either the provider's result
object, unchanged, or the error string built in the except branch. -/
inductive ToolResult where
  | ok : PyVal → ToolResult
  | errStr : String → ToolResult
deriving DecidableEq, Repr

/-- Body of MCPClientManager.execute_tool (lines 115-121).  The call
argument abstracts session.call_tool (Except.error e = the call raised
with message str(e) = e).  self.sessions[server_name] on an absent key
raises KeyError, whose str is the quoted key; every exception is caught
and turned into the string "Error executing tool: " + str(e). -/
def execute_tool (sessions : List String)
    (call : String → String → PyDict → Except String PyVal)
    (server_name tool_name : String) (arguments : PyDict) : ToolResult :=
  if sessions.contains server_name then
    match call server_name tool_name arguments with
    | .ok result => .ok result
    | .error e => .errStr ("Error executing tool: " ++ e)
  else
    .errStr ("Error executing tool: \x27" ++ server_name ++ "\x27")

/-! ## Orchestration Loop (process_query of src/client.py, lines 138-240) -/

/-- A requested tool call as parsed from the model reply: a name and an
argument dict. -/
structure ToolCall where
  name : String
  input : PyDict
deriving DecidableEq, Repr

/-- An element of the Python messages list.  The code appends three
shapes: role-tagged dicts (the user message of line 145 and the
assistant link message of line 225), bare flattened strings (line 190),
and whatever llm_client.parse_tool_result returns (line 228), kept
opaque here. -/
inductive Msg where
  | roleMsg : String → PyVal → Msg
  | flat : String → Msg
  | toolMsg : ToolCall → ToolResult → Msg
deriving DecidableEq, Repr

/-- The result of llm_client.parse_response: optional structured content,
text segments, and requested tool calls. -/
structure ParsedResponse where
  content : Option PyVal
  text_content : List String
  tool_calls : List ToolCall
deriving Repr

/-- The Python exceptions the loop itself can raise: StopIteration from
next() on an exhausted generator (line 209, unknown tool name), and any
exception from the model client call (lines 186-187). -/
inductive PyExc where
  | stopIteration : PyExc
  | modelFailure : String → PyExc
deriving DecidableEq, Repr

/-- str(e) for a PyExc, used as the HTTPException detail (line 240);
str(StopIteration()) is the empty string. -/
def PyExc.detail : PyExc → String
  | .stopIteration => ""
  | .modelFailure e => e

/-- The mutable state of one turn: the messages list (aliasing the
conversations store entry) and the responses list. -/
structure LoopState where
  messages : List Msg
  responses : List String
deriving DecidableEq, Repr

/-- The fixed collaborators of process_query: the session manager's tools
and sessions, the provider behaviour, and the model client behaviour.
replies i abstracts the create_message / parse_response pair at
model-query step i of the turn. -/
structure Engine where
  tools : List ToolDict
  sessions : List String
  call : String → String → PyDict → Except String PyVal
  parseTR : ToolCall → ToolResult → Msg
  replies : Nat → Except String ParsedResponse

/-- First characters of the URL pattern of lines 195 and 223. -/
def driveUrlStart : List Char := "https://drive.google.com/".toList

/-- One attempt of the regex https://drive\.google\.com/\S+ anchored at
the head of s: the literal followed by a maximal nonempty run of
non-whitespace characters. -/
def matchDriveAt (s : List Char) : Option (List Char) :=
  if driveUrlStart.isPrefixOf s then
    let rest := s.drop driveUrlStart.length
    let m := rest.takeWhile (fun c => !c.isWhitespace)
    if m.isEmpty then none else some (driveUrlStart ++ m)
  else none

/-- re.search over the text: the leftmost position where the pattern
matches, scanning left to right. -/
def findDriveUrl : List Char → Option (List Char)
  | [] => none
  | c :: rest =>
      match matchDriveAt (c :: rest) with
      | some m => some m
      | none => findDriveUrl rest

/-- The per-segment rewriting of lines 194-199: if the drive-URL pattern
matches, every occurrence of the matched URL is replaced by the
clickable-link annotation (Python str.replace replaces all
occurrences); otherwise the text is returned verbatim. -/
def formatText (text : String) : String :=
  match findDriveUrl text.toList with
  | some url =>
      let u := String.mk url
      text.replace u ("[Click to view file](" ++ u ++ ")")
  | none => text

/-- The f-string of line 218. -/
def callNote (tc : ToolCall) : String :=
  "[Calling tool " ++ tc.name ++ " with args " ++ pyStr (.dict tc.input) ++ "]"

/-- The f-string of line 223. -/
def driveLink (fid : PyVal) : String :=
  "https://drive.google.com/file/d/" ++ pyStr fid ++ "/view?usp=sharing"

/-- The body of the inner for loop over tool calls (lines 205-228) for a
single tool call: resolve the name with next(...) — StopIteration when
no tool matches —, execute the tool, append the invocation note, run
the drive_share link injection of lines 221-225 when the argument dict
holds a fileId key, and append the parsed tool-result message. -/
def processToolCall (E : Engine) (st : LoopState) (tc : ToolCall) :
    Except (PyExc × LoopState) LoopState :=
  match E.tools.find? (fun t => t.name == tc.name) with
  | none => .error (.stopIteration, st)
  | some tool_info =>
      let tool_result := execute_tool E.sessions E.call tool_info.server tc.name tc.input
      let st1 : LoopState := ⟨st.messages, st.responses ++ [callNote tc]⟩
      let st2 : LoopState :=
        if tc.name == "drive_share" then
          match lookupD tc.input "fileId" with
          | some fid =>
              ⟨st1.messages ++ [.roleMsg "assistant" (.str (driveLink fid))],
               st1.responses ++ ["[Click to view file](" ++ driveLink fid ++ ")"]⟩
          | none => st1
        else st1
      .ok ⟨st2.messages ++ [E.parseTR tc tool_result], st2.responses⟩

/-- The inner for loop over all requested tool calls, in order; an
exception aborts the remaining iterations. -/
def processToolCalls (E : Engine) (st : LoopState) :
    List ToolCall → Except (PyExc × LoopState) LoopState
  | [] => .ok st
  | tc :: rest =>
      match processToolCall E st tc with
      | .error e => .error e
      | .ok st' => processToolCalls E st' rest

/-- One iteration of the for loop of lines 150-228, given the parsed
model reply pr.  The function_declarations construction and the
GeminiClient instantiation have no observable effect here because the
model call itself is abstracted by Engine.replies.  Returns the updated
state and whether the loop continues (false = the break of line 203). -/
def runStep (E : Engine) (pr : ParsedResponse) (st : LoopState) :
    Except (PyExc × LoopState) (LoopState × Bool) :=
  let st1 : LoopState :=
    match pr.content with
    | some c =>
        if pyTruthy c then ⟨st.messages ++ [.flat (flatten_to_string c)], st.responses⟩
        else st
    | none => st
  let st2 : LoopState :=
    if pr.text_content.isEmpty then st1
    else ⟨st1.messages, st1.responses ++ pr.text_content.map formatText⟩
  if pr.tool_calls.isEmpty then
    .ok (st2, false)
  else
    match processToolCalls E st2 pr.tool_calls with
    | .error e => .error e
    | .ok st3 => .ok (st3, true)

/-- The bounded for loop of line 150: fuel iterations remain, i is the
index of the next model-query step, and the returned Nat counts the
model-query steps actually performed.  Exhausted fuel is a plain fall
through the for loop (a normal stop). -/
def runLoop (E : Engine) : Nat → Nat → LoopState → Except (PyExc × LoopState) (LoopState × Nat)
  | 0, _, st => .ok (st, 0)
  | fuel + 1, i, st =>
      match E.replies i with
      | .error e => .error (.modelFailure e, st)
      | .ok pr =>
          match runStep E pr st with
          | .error e => .error e
          | .ok (st', cont) =>
              if cont then
                match runLoop E fuel (i + 1) st' with
                | .ok (st'', n) => .ok (st'', n + 1)
                | .error e => .error e
              else .ok (st', 1)

/-- MAX_STEPS of line 148. -/
def MAX_STEPS : Nat := 4

/-- The body of the try block of process_query: append the incoming user
message to the conversation (conv is the store entry for the resolved
conversation id, empty when fresh) and run the bounded loop with an
empty responses list. -/
def process_query (E : Engine) (conv : List Msg) (queryText : String) :
    Except (PyExc × LoopState) (LoopState × Nat) :=
  runLoop E MAX_STEPS 0 ⟨conv ++ [.roleMsg "user" (.str queryText)], []⟩

/-- What the HTTP caller receives: the success payload of lines 231-235
(conversation id omitted — it is an opaque uuid), or the
HTTPException(status_code=500, detail=str(e)) of line 240. -/
inductive TurnOutcome where
  | success : List String → List Msg → TurnOutcome
  | httpError : Nat → String → TurnOutcome
deriving DecidableEq, Repr

/-- The whole request boundary: the outcome returned to the caller, paired
with the conversations store entry after the turn.  Because messages
aliases conversations[conv_id], the store keeps every append performed
before an exception; on success line 230 rewrites the entry with the
same list. -/
def handleQuery (E : Engine) (conv : List Msg) (q : String) : TurnOutcome × List Msg :=
  match process_query E conv q with
  | .ok (st, _) => (.success st.responses st.messages, st.messages)
  | .error (exc, st) => (.httpError 500 exc.detail, st.messages)

/-- The assistant-content append of lines 189-190, as a list (empty when
the reply carries no truthy content). -/
def contentAppend (pr : ParsedResponse) : List Msg :=
  match pr.content with
  | some c => if pyTruthy c then [.flat (flatten_to_string c)] else []
  | none => []

/-- Role test used to state what an assistant message is. -/
def isAssistantMsg : Msg → Bool
  | .roleMsg r _ => r == "assistant"
  | _ => false

/-- The responses list after the text-segment phase of one step. -/
def respAfter (pr : ParsedResponse) (rs : List String) : List String :=
  if pr.text_content.isEmpty then rs else rs ++ pr.text_content.map formatText

/-! ## Concrete instances used by witnesses and counterexamples -/

/-- A registry entry for a provider named srv exposing tool t1. -/
def tdT1 : ToolDict := ⟨"t1", "a tool", "srv", .str "schema"⟩

/-- A registry entry for the drive provider exposing drive_share. -/
def tdShare : ToolDict := ⟨"drive_share", "share a file", "gdrive", .str "schema"⟩

/-- A reply that requests no tool call and carries the text content hey. -/
def prC6 : ParsedResponse := ⟨some (.str "hey"), ["fine"], []⟩

/-- A reply that always requests the resolvable tool t1. -/
def prC2 : ParsedResponse := ⟨none, [], [⟨"t1", .nil⟩]⟩

/-- A reply whose first tool call names an unregistered tool nope and
whose second names the registered t1. -/
def prC1 : ParsedResponse := ⟨none, [], [⟨"nope", .nil⟩, ⟨"t1", .nil⟩]⟩

/-- An engine whose model always answers prC2 and whose single provider
always succeeds. -/
def engC2 : Engine :=
  ⟨[tdT1], ["srv"], fun _ _ _ => .ok (.str "done"),
   fun tc r => .toolMsg tc r, fun _ => .ok prC2⟩

/-- An engine whose model answers prC6 (no tool calls). -/
def engC6 : Engine :=
  ⟨[tdT1], ["srv"], fun _ _ _ => .ok (.str "done"),
   fun tc r => .toolMsg tc r, fun _ => .ok prC6⟩

/-- An engine whose model requests an unknown tool first (prC1). -/
def engC1 : Engine :=
  ⟨[tdT1], ["srv"], fun _ _ _ => .ok (.str "done"),
   fun tc r => .toolMsg tc r, fun _ => .ok prC1⟩

/-- An engine whose model client always raises with message boom. -/
def engC3 : Engine :=
  ⟨[tdT1], ["srv"], fun _ _ _ => .ok (.str "done"),
   fun tc r => .toolMsg tc r, fun _ => .error "boom"⟩

/-- An engine for the drive_share branch: registry holds drive_share,
the model reply is irrelevant to per-call processing. -/
def engC10 : Engine :=
  ⟨[tdShare], ["gdrive"], fun _ _ _ => .ok (.str "shared"),
   fun tc r => .toolMsg tc r, fun _ => .ok ⟨none, [], []⟩⟩

/-- A drive_share call whose arguments hold a fileId. -/
def tcFid : ToolCall := ⟨"drive_share", .cons "fileId" (.str "F1") .nil⟩

/-- A drive_share call whose arguments lack fileId. -/
def tcNoFid : ToolCall := ⟨"drive_share", .cons "other" (.str "x") .nil⟩

/-- A provider configuration used by the witness of the initialization
claim. -/
def cfg0 : ServerConfig := ⟨"cmd", [], none⟩

/-- An attempt function that fails exactly for the provider named x. -/
def attempt0 : String → ServerConfig → Option Unit :=
  fun n _ => if n == "x" then none else some ()

/-- A list_tools behaviour advertising one tool per provider. -/
def listTools0 : String → Except String (List ToolSpec) :=
  fun n => .ok [⟨"tool_" ++ n, "d", .str "s"⟩]

/-! ## Helper lemmas -/

theorem initialize_sessions_append (xs ys : List (String × ServerConfig))
    (attempt : String → ServerConfig → Option Unit) :
    initialize_sessions (xs ++ ys) attempt
      = initialize_sessions xs attempt ++ initialize_sessions ys attempt := by
  induction xs with
  | nil => rfl
  | cons hd tl ih =>
      obtain ⟨n, c⟩ := hd
      simp only [List.cons_append, initialize_sessions]
      cases attempt n c <;> simp [ih]

theorem mem_initialize_sessions (cfgs : List (String × ServerConfig))
    (attempt : String → ServerConfig → Option Unit) (n : String)
    (h : n ∈ initialize_sessions cfgs attempt) : n ∈ cfgs.map Prod.fst := by
  induction cfgs with
  | nil => simp [initialize_sessions] at h
  | cons hd tl ih =>
      obtain ⟨m, c⟩ := hd
      simp only [initialize_sessions] at h
      cases hm : attempt m c <;> rw [hm] at h
      · exact List.mem_cons_of_mem _ (ih h)
      · rcases List.mem_cons.mp h with h1 | h2
        · simp [h1]
        · exact List.mem_cons_of_mem _ (ih h2)

theorem load_tools_append (xs ys : List String)
    (listTools : String → Except String (List ToolSpec)) :
    load_tools (xs ++ ys) listTools = load_tools xs listTools ++ load_tools ys listTools := by
  induction xs with
  | nil => rfl
  | cons hd tl ih =>
      simp only [List.cons_append, load_tools]
      cases listTools hd <;> simp [ih]

theorem load_tools_server_mem (ss : List String)
    (listTools : String → Except String (List ToolSpec)) (td : ToolDict) :
    td ∈ load_tools ss listTools → td.server ∈ ss := by
  induction ss with
  | nil => intro h; simp [load_tools] at h
  | cons hd tl ih =>
      intro h
      simp only [load_tools] at h
      cases hl : listTools hd <;> rw [hl] at h
      · simp only [List.nil_append] at h
        exact List.mem_cons_of_mem _ (ih h)
      · rcases List.mem_append.mp h with h1 | h2
        · obtain ⟨t, _, rfl⟩ := List.mem_map.mp h1
          simp
        · exact List.mem_cons_of_mem _ (ih h2)

theorem processToolCall_messages (E : Engine) (st : LoopState) (tc : ToolCall) :
    (∀ st', processToolCall E st tc = .ok st' → st.messages <+: st'.messages) ∧
    (∀ e st'', processToolCall E st tc = .error (e, st'') → st.messages <+: st''.messages) := by
  unfold processToolCall
  cases hf : E.tools.find? (fun t => t.name == tc.name) with
  | none =>
      refine ⟨fun st' h => by simp at h, fun e st'' h => ?_⟩
      simp only [Except.error.injEq, Prod.mk.injEq] at h
      rw [← h.2]
  | some ti =>
      refine ⟨fun st' h => ?_, fun e st'' h => by simp at h⟩
      simp only [Except.ok.injEq] at h
      rw [← h]
      dsimp only
      split
      · split <;> simp
      · simp

theorem processToolCalls_messages (E : Engine) (tcs : List ToolCall) : ∀ st : LoopState,
    (∀ st', processToolCalls E st tcs = .ok st' → st.messages <+: st'.messages) ∧
    (∀ e st'', processToolCalls E st tcs = .error (e, st'') → st.messages <+: st''.messages) := by
  induction tcs with
  | nil =>
      intro st
      refine ⟨fun st' h => ?_, fun e st'' h => by simp [processToolCalls] at h⟩
      simp only [processToolCalls, Except.ok.injEq] at h
      rw [← h]
  | cons tc rest ih =>
      intro st
      simp only [processToolCalls]
      cases hp : processToolCall E st tc with
      | error e0 =>
          refine ⟨fun st' h => by simp at h, fun e st'' h => ?_⟩
          simp only [Except.error.injEq] at h
          subst h
          exact (processToolCall_messages E st tc).2 e st'' hp
      | ok st1 =>
          have h1 : st.messages <+: st1.messages :=
            (processToolCall_messages E st tc).1 st1 hp
          refine ⟨fun st' h => h1.trans ((ih st1).1 st' h),
                  fun e st'' h => h1.trans ((ih st1).2 e st'' h)⟩

/-- Reformulation of one loop iteration: the content and text phases
always leave the state ⟨messages ++ contentAppend pr, respAfter ...⟩,
after which the step either breaks or runs the tool calls. -/
theorem runStep_eq (E : Engine) (pr : ParsedResponse) (st : LoopState) :
    runStep E pr st =
      if pr.tool_calls.isEmpty then
        .ok (⟨st.messages ++ contentAppend pr, respAfter pr st.responses⟩, false)
      else
        match processToolCalls E
            ⟨st.messages ++ contentAppend pr, respAfter pr st.responses⟩ pr.tool_calls with
        | .error e => .error e
        | .ok st3 => .ok (st3, true) := by
  unfold runStep contentAppend respAfter
  cases hc : pr.content with
  | none => by_cases he : pr.text_content.isEmpty <;> simp [he]
  | some c =>
      by_cases ht : pyTruthy c <;> by_cases he : pr.text_content.isEmpty <;>
        simp [ht, he]

theorem runStep_messages (E : Engine) (pr : ParsedResponse) (st : LoopState) :
    (∀ st' b, runStep E pr st = .ok (st', b) →
        (st.messages ++ contentAppend pr) <+: st'.messages) ∧
    (∀ e st'', runStep E pr st = .error (e, st'') →
        (st.messages ++ contentAppend pr) <+: st''.messages) := by
  rw [runStep_eq]
  by_cases hn : pr.tool_calls.isEmpty
  · simp only [hn, if_pos]
    exact ⟨fun st' b h => by
        simp only [Except.ok.injEq, Prod.mk.injEq] at h
        rw [← h.1],
      fun e st'' h => by simp at h⟩
  · simp only [hn, if_neg, Bool.false_eq_true, not_false_eq_true]
    cases hp : processToolCalls E
        ⟨st.messages ++ contentAppend pr, respAfter pr st.responses⟩ pr.tool_calls with
    | error e0 =>
        refine ⟨fun st' b h => by simp [hp] at h, fun e st'' h => ?_⟩
        simp only [hp, Except.error.injEq] at h
        subst h
        exact (processToolCalls_messages E pr.tool_calls _).2 e st'' hp
    | ok st3 =>
        refine ⟨fun st' b h => ?_, fun e st'' h => by simp [hp] at h⟩
        simp only [hp, Except.ok.injEq, Prod.mk.injEq] at h
        rw [← h.1]
        exact (processToolCalls_messages E pr.tool_calls _).1 st3 hp

theorem runLoop_messages (E : Engine) : ∀ (fuel i : Nat) (st : LoopState),
    (∀ st' n, runLoop E fuel i st = .ok (st', n) → st.messages <+: st'.messages) ∧
    (∀ e st'', runLoop E fuel i st = .error (e, st'') → st.messages <+: st''.messages) := by
  intro fuel
  induction fuel with
  | zero =>
      intro i st
      refine ⟨fun st' n h => ?_, fun e st'' h => by simp [runLoop] at h⟩
      simp only [runLoop, Except.ok.injEq, Prod.mk.injEq] at h
      rw [← h.1]
  | succ f ih =>
      intro i st
      constructor
      · intro st' n h
        simp only [runLoop] at h
        split at h
        · simp at h
        · rename_i pr hr
          split at h
          · simp at h
          · rename_i st1 cont hs
            have h1 : st.messages <+: st1.messages :=
              (List.prefix_append _ _).trans ((runStep_messages E pr st).1 st1 cont hs)
            split at h
            · split at h
              · rename_i st2 n2 hl
                simp only [Except.ok.injEq, Prod.mk.injEq] at h
                rw [← h.1]
                exact h1.trans ((ih (i + 1) st1).1 st2 n2 hl)
              · simp at h
            · simp only [Except.ok.injEq, Prod.mk.injEq] at h
              rw [← h.1]
              exact h1
      · intro e st'' h
        simp only [runLoop] at h
        split at h
        · rename_i e0 hr
          simp only [Except.error.injEq, Prod.mk.injEq] at h
          rw [← h.2]
        · rename_i pr hr
          split at h
          · rename_i e0 hs
            simp only [Except.error.injEq] at h
            subst h
            exact (List.prefix_append _ _).trans ((runStep_messages E pr st).2 e st'' hs)
          · rename_i st1 cont hs
            have h1 : st.messages <+: st1.messages :=
              (List.prefix_append _ _).trans ((runStep_messages E pr st).1 st1 cont hs)
            split at h
            · split at h
              · simp at h
              · rename_i e0 hl
                simp only [Except.error.injEq] at h
                subst h
                exact h1.trans ((ih (i + 1) st1).2 e st'' hl)
            · simp at h

theorem runLoop_steps_le (E : Engine) : ∀ (fuel i : Nat) (st : LoopState) (st' : LoopState)
    (n : Nat), runLoop E fuel i st = .ok (st', n) → n ≤ fuel := by
  intro fuel
  induction fuel with
  | zero =>
      intro i st st' n h
      simp only [runLoop, Except.ok.injEq, Prod.mk.injEq] at h
      omega
  | succ f ih =>
      intro i st st' n h
      simp only [runLoop] at h
      split at h
      · simp at h
      · rename_i pr hr
        split at h
        · simp at h
        · rename_i st1 cont hs
          split at h
          · split at h
            · rename_i st2 n2 hl
              simp only [Except.ok.injEq, Prod.mk.injEq] at h
              have := ih (i + 1) st1 st2 n2 hl
              omega
            · simp at h
          · simp only [Except.ok.injEq, Prod.mk.injEq] at h
            omega

theorem processToolCalls_ok (E : Engine) (tcs : List ToolCall)
    (hres : ∀ tc ∈ tcs, (E.tools.find? (fun t => t.name == tc.name)).isSome) :
    ∀ st : LoopState, ∃ st', processToolCalls E st tcs = .ok st' := by
  induction tcs with
  | nil => intro st; exact ⟨st, rfl⟩
  | cons tc rest ih =>
      intro st
      obtain ⟨ti, hti⟩ := Option.isSome_iff_exists.mp (hres tc (by simp))
      have hstep : ∃ st1, processToolCall E st tc = .ok st1 := by
        unfold processToolCall
        rw [hti]
        exact ⟨_, rfl⟩
      obtain ⟨st1, hst1⟩ := hstep
      obtain ⟨st', hst'⟩ := ih (fun tc' htc' => hres tc' (by simp [htc'])) st1
      refine ⟨st', ?_⟩
      simp only [processToolCalls, hst1, hst']

theorem runLoop_runs_all (E : Engine)
    (h : ∀ i, ∃ pr, E.replies i = .ok pr ∧ pr.tool_calls ≠ [] ∧
        ∀ tc ∈ pr.tool_calls, (E.tools.find? (fun t => t.name == tc.name)).isSome) :
    ∀ (fuel i : Nat) (st : LoopState), ∃ st', runLoop E fuel i st = .ok (st', fuel) := by
  intro fuel
  induction fuel with
  | zero => intro i st; exact ⟨st, rfl⟩
  | succ f ih =>
      intro i st
      obtain ⟨pr, hpr, hnt, hres⟩ := h i
      have hne : pr.tool_calls.isEmpty = false := by
        cases htc : pr.tool_calls with
        | nil => exact absurd htc hnt
        | cons a l => rfl
      obtain ⟨st3, hst3⟩ := processToolCalls_ok E pr.tool_calls hres
        ⟨st.messages ++ contentAppend pr, respAfter pr st.responses⟩
      have hstep : runStep E pr st = .ok (st3, true) := by
        rw [runStep_eq, hne]
        simp only [Bool.false_eq_true, if_false, hst3]
      obtain ⟨st', hst'⟩ := ih (i + 1) st3
      refine ⟨st', ?_⟩
      simp only [runLoop, hpr, hstep, if_true, hst']

theorem prefix_getElem? {α : Type} {l1 l2 : List α} (h : l1 <+: l2) (i : Nat)
    (hi : i < l1.length) : l2[i]? = l1[i]? := by
  obtain ⟨t, rfl⟩ := h
  exact List.getElem?_append_left hi

theorem runLoop_first_step (E : Engine) (fuel i : Nat) (st : LoopState)
    (pr : ParsedResponse) (h0 : E.replies i = .ok pr) :
    (∀ st' n, runLoop E (fuel + 1) i st = .ok (st', n) →
        (st.messages ++ contentAppend pr) <+: st'.messages) ∧
    (∀ e st'', runLoop E (fuel + 1) i st = .error (e, st'') →
        (st.messages ++ contentAppend pr) <+: st''.messages) := by
  constructor
  · intro st' n h
    simp only [runLoop] at h
    split at h
    · simp at h
    · rename_i pr' hr
      rw [h0] at hr
      injection hr with hpr
      subst hpr
      split at h
      · simp at h
      · rename_i st1 cont hs
        have h1 : (st.messages ++ contentAppend pr) <+: st1.messages :=
          (runStep_messages E pr st).1 st1 cont hs
        split at h
        · split at h
          · rename_i st2 n2 hl
            simp only [Except.ok.injEq, Prod.mk.injEq] at h
            rw [← h.1]
            exact h1.trans
              ((runLoop_messages E fuel (i + 1) st1).1 st2 n2 hl)
          · simp at h
        · simp only [Except.ok.injEq, Prod.mk.injEq] at h
          rw [← h.1]
          exact h1
  · intro e st'' h
    simp only [runLoop] at h
    split at h
    · rename_i e0 hr
      rw [h0] at hr
      simp at hr
    · rename_i pr' hr
      rw [h0] at hr
      injection hr with hpr
      subst hpr
      split at h
      · rename_i e0 hs
        simp only [Except.error.injEq] at h
        subst h
        exact (runStep_messages E pr st).2 e st'' hs
      · rename_i st1 cont hs
        have h1 : (st.messages ++ contentAppend pr) <+: st1.messages :=
          (runStep_messages E pr st).1 st1 cont hs
        split at h
        · split at h
          · simp at h
          · rename_i e0 hl
            simp only [Except.error.injEq] at h
            subst h
            exact h1.trans
              ((runLoop_messages E fuel (i + 1) st1).2 e st'' hl)
        · simp at h

/-! ## Claims -/

/-- C8: flattening a plain text leaf returns that text unchanged, and in
particular the normalizer is idempotent on already-flat text: flattening
the text produced by any previous flattening leaves it unchanged. -/
theorem flatten_text_leaf_unchanged (s : String) :
    flatten_to_string (.str s) = s ∧
    ∀ v : PyVal, flatten_to_string (.str (flatten_to_string v)) = flatten_to_string v :=
  ⟨rfl, fun _ => rfl⟩

/-- C4: for every provider name, operation name and argument payload,
execute_tool either returns the provider's result unchanged (success
against a live provider) or returns a descriptive error string starting
with "Error executing tool: "; it is total, so no exception escapes the
dispatch boundary, also when the provider raises or the provider name is
unknown. -/
theorem dispatch_result_or_error_string (sessions : List String)
    (call : String → String → PyDict → Except String PyVal)
    (server_name tool_name : String) (arguments : PyDict) :
    (∃ r, sessions.contains server_name = true ∧
        call server_name tool_name arguments = .ok r ∧
        execute_tool sessions call server_name tool_name arguments = .ok r) ∨
    (∃ s, execute_tool sessions call server_name tool_name arguments
        = .errStr ("Error executing tool: " ++ s)) := by
  unfold execute_tool
  by_cases hs : sessions.contains server_name
  · rw [if_pos hs]
    cases hc : call server_name tool_name arguments with
    | ok r => exact Or.inl ⟨r, hs, rfl, rfl⟩
    | error e => exact Or.inr ⟨e, rfl⟩
  · rw [if_neg hs]
    exact Or.inr ⟨"\x27" ++ server_name ++ "\x27", rfl⟩

/-- C5: a provider whose connection attempt fails is skipped without
aborting initialization of the other providers (the live set is exactly
the concatenation of what the surrounding providers yield), the
aggregated tool list is exactly the concatenation of what the other
providers contribute, and the failed provider contributes zero
operations: no aggregated tool is tagged with its name. -/
theorem provider_failure_isolated
    (pre post : List (String × ServerConfig)) (bad : String) (cfg : ServerConfig)
    (attempt : String → ServerConfig → Option Unit)
    (listTools : String → Except String (List ToolSpec))
    (hfail : attempt bad cfg = none)
    (hfresh : bad ∉ (pre ++ post).map Prod.fst) :
    initialize_sessions (pre ++ (bad, cfg) :: post) attempt
      = initialize_sessions pre attempt ++ initialize_sessions post attempt
    ∧ load_tools (initialize_sessions (pre ++ (bad, cfg) :: post) attempt) listTools
      = load_tools (initialize_sessions pre attempt) listTools
        ++ load_tools (initialize_sessions post attempt) listTools
    ∧ ∀ td ∈ load_tools (initialize_sessions (pre ++ (bad, cfg) :: post) attempt) listTools,
        td.server ≠ bad := by
  have h1 : initialize_sessions (pre ++ (bad, cfg) :: post) attempt
      = initialize_sessions pre attempt ++ initialize_sessions post attempt := by
    rw [initialize_sessions_append]
    simp [initialize_sessions, hfail]
  refine ⟨h1, by rw [h1, load_tools_append], ?_⟩
  intro td htd heq
  rw [h1] at htd
  have hmem : td.server ∈ initialize_sessions pre attempt
      ++ initialize_sessions post attempt := load_tools_server_mem _ _ _ htd
  rw [← initialize_sessions_append] at hmem
  have := mem_initialize_sessions _ _ _ hmem
  rw [heq] at this
  simp only [List.map_append] at hfresh this
  rcases List.mem_append.mp this with hpre | hpost
  · exact hfresh (List.mem_append.mpr (Or.inl hpre))
  · exact hfresh (List.mem_append.mpr (Or.inr hpost))

/-- Witness for provider_failure_isolated at a concrete configuration:
providers a, x, b where only x fails to connect. -/
theorem provider_failure_isolated_witness :
    attempt0 "x" cfg0 = none ∧
    ("x" ∉ ([("a", cfg0)] ++ [("b", cfg0)]).map Prod.fst) ∧
    initialize_sessions ([("a", cfg0)] ++ ("x", cfg0) :: [("b", cfg0)]) attempt0
      = initialize_sessions [("a", cfg0)] attempt0
        ++ initialize_sessions [("b", cfg0)] attempt0 ∧
    load_tools (initialize_sessions ([("a", cfg0)] ++ ("x", cfg0) :: [("b", cfg0)]) attempt0)
        listTools0
      = load_tools (initialize_sessions [("a", cfg0)] attempt0) listTools0
        ++ load_tools (initialize_sessions [("b", cfg0)] attempt0) listTools0 := by
  have h := provider_failure_isolated [("a", cfg0)] [("b", cfg0)] "x" cfg0
    attempt0 listTools0 rfl (by decide)
  exact ⟨rfl, by decide, h.1, h.2.1⟩

/-- C2: the loop performs at most four model-query steps per turn; and
when every reply requests at least one resolvable tool call, the turn
still stops normally (a successful result) after exactly four steps —
reaching the bound is a non-error stop. -/
theorem step_bound (E : Engine) (conv : List Msg) (q : String) :
    (∀ st n, process_query E conv q = .ok (st, n) → n ≤ 4) ∧
    ((∀ i, ∃ pr, E.replies i = .ok pr ∧ pr.tool_calls ≠ [] ∧
        ∀ tc ∈ pr.tool_calls, (E.tools.find? (fun t => t.name == tc.name)).isSome) →
      ∃ st, process_query E conv q = .ok (st, 4)) := by
  constructor
  · intro st n h
    exact runLoop_steps_le E MAX_STEPS 0 _ st n h
  · intro hreq
    obtain ⟨st', h'⟩ := runLoop_runs_all E hreq MAX_STEPS 0
      ⟨conv ++ [Msg.roleMsg "user" (.str q)], []⟩
    exact ⟨st', h'⟩

/-- Witness for step_bound: a model that never stops requesting the
resolvable tool t1 yields a normal stop after exactly four steps. -/
theorem step_bound_witness :
    (∀ st n, process_query engC2 [] "go" = .ok (st, n) → n ≤ 4) ∧
    ∃ st, process_query engC2 [] "go" = .ok (st, 4) := by
  have h := step_bound engC2 [] "go"
  refine ⟨h.1, h.2 ?_⟩
  intro i
  exact ⟨prC2, rfl, by decide, by decide⟩

/-- C6: when the first reply requests zero tool calls the loop stops after
exactly one model-query step, and the conversation holds exactly the
prior history, then the incoming user message, then the assistant
content when the reply carried any — each appended exactly once. -/
theorem zero_tool_calls_one_step (E : Engine) (conv : List Msg) (q : String)
    (pr : ParsedResponse) (h0 : E.replies 0 = .ok pr) (hnt : pr.tool_calls = []) :
    process_query E conv q =
      .ok (⟨(conv ++ [Msg.roleMsg "user" (.str q)]) ++ contentAppend pr,
            respAfter pr []⟩, 1) := by
  have hne : pr.tool_calls.isEmpty = true := by rw [hnt]; rfl
  have h4 : process_query E conv q
      = runLoop E (3 + 1) 0 ⟨conv ++ [Msg.roleMsg "user" (.str q)], []⟩ := rfl
  rw [h4, runLoop, h0]
  simp only [runStep_eq, hne, if_true]
  rfl

/-- Witness for zero_tool_calls_one_step on a concrete engine whose first
reply carries content hey and no tool call. -/
theorem zero_tool_calls_one_step_witness :
    engC6.replies 0 = .ok prC6 ∧ prC6.tool_calls = [] ∧
    process_query engC6 [] "hi" =
      .ok (⟨([] ++ [Msg.roleMsg "user" (.str "hi")]) ++ contentAppend prC6,
            respAfter prC6 []⟩, 1) :=
  ⟨rfl, rfl, zero_tool_calls_one_step engC6 [] "hi" prC6 rfl rfl⟩

/-- C9: the conversation only grows during a turn: the pre-turn history,
and the history extended with the incoming user message, are both
prefixes of the store entry after the turn, whether the turn succeeded
or raised — no stored message is mutated or removed. -/
theorem conversation_append_only (E : Engine) (conv : List Msg) (q : String) :
    (conv ++ [Msg.roleMsg "user" (.str q)]) <+: (handleQuery E conv q).2 ∧
    conv <+: (handleQuery E conv q).2 := by
  have hbase : conv <+: conv ++ [Msg.roleMsg "user" (.str q)] := List.prefix_append _ _
  cases hp : process_query E conv q with
  | ok p =>
      obtain ⟨st, n⟩ := p
      have hpre : (conv ++ [Msg.roleMsg "user" (.str q)]) <+: st.messages :=
        (runLoop_messages E MAX_STEPS 0 ⟨conv ++ [Msg.roleMsg "user" (.str q)], []⟩).1 st n hp
      simp only [handleQuery, hp]
      exact ⟨hpre, hbase.trans hpre⟩
  | error e =>
      obtain ⟨exc, st⟩ := e
      have hpre : (conv ++ [Msg.roleMsg "user" (.str q)]) <+: st.messages :=
        (runLoop_messages E MAX_STEPS 0 ⟨conv ++ [Msg.roleMsg "user" (.str q)], []⟩).2 exc st hp
      simp only [handleQuery, hp]
      exact ⟨hpre, hbase.trans hpre⟩

/-- C7 counterexample: in a run whose reply carries content, the appended
entry is a bare flattened string with no role at all — the store ends
as [user message, Msg.flat], and no stored message has role assistant. -/
theorem content_without_role_counterexample :
    (handleQuery engC6 [] "hi").2
      = [Msg.roleMsg "user" (.str "hi"), Msg.flat "hey"] ∧
    (handleQuery engC6 [] "hi").2.all (fun m => !isAssistantMsg m) = true := by
  decide

/-- C7 amended: when a reply carries truthy content, the loop appends the
flattened content as a bare string entry (Msg.flat) — not as a message
whose role is assistant; the entry sits right after the user message. -/
theorem content_appended_without_role (E : Engine) (conv : List Msg) (q : String)
    (pr : ParsedResponse) (c : PyVal)
    (h0 : E.replies 0 = .ok pr) (hc : pr.content = some c) (ht : pyTruthy c = true) :
    (handleQuery E conv q).2[conv.length + 1]? = some (Msg.flat (flatten_to_string c)) ∧
    ∀ v, Msg.flat (flatten_to_string c) ≠ Msg.roleMsg "assistant" v := by
  have hca : contentAppend pr = [Msg.flat (flatten_to_string c)] := by
    simp [contentAppend, hc, ht]
  have hlen : (conv ++ [Msg.roleMsg "user" (.str q)]).length = conv.length + 1 := by simp
  refine ⟨?_, fun v h => by cases h⟩
  have hfs := runLoop_first_step E 3 0 ⟨conv ++ [Msg.roleMsg "user" (.str q)], []⟩ pr h0
  cases hp : process_query E conv q with
  | ok p =>
      obtain ⟨st, n⟩ := p
      have hpre : ((conv ++ [Msg.roleMsg "user" (.str q)]) ++ contentAppend pr)
          <+: st.messages := hfs.1 st n hp
      simp only [handleQuery, hp]
      rw [hca] at hpre
      rw [prefix_getElem? hpre (conv.length + 1) (by simp), ← hlen,
        List.getElem?_concat_length]
  | error e =>
      obtain ⟨exc, st⟩ := e
      have hpre := hfs.2 exc st hp
      simp only [handleQuery, hp]
      rw [hca] at hpre
      rw [prefix_getElem? hpre (conv.length + 1) (by simp), ← hlen,
        List.getElem?_concat_length]

/-- Witness for content_appended_without_role on the concrete engine whose
first reply carries the content hey. -/
theorem content_appended_without_role_witness :
    engC6.replies 0 = .ok prC6 ∧ prC6.content = some (.str "hey") ∧
    pyTruthy (.str "hey") = true ∧
    (handleQuery engC6 [] "hi").2[1]? = some (Msg.flat (flatten_to_string (.str "hey"))) := by
  have h := content_appended_without_role engC6 [] "hi" prC6 (.str "hey") rfl rfl (by decide)
  exact ⟨rfl, rfl, by decide, h.1⟩

/-- C1 counterexample: the first requested tool name is absent from the
registry, so the whole turn aborts as a 500 error: the resolvable second
call is never executed, and no explicit per-call error result is
recorded — the store keeps only the user message. -/
theorem unknown_tool_aborts_counterexample :
    handleQuery engC1 [] "hi"
      = (.httpError 500 "", [Msg.roleMsg "user" (.str "hi")]) := by
  decide

/-- C1 amended: a tool call whose name is absent from the registry raises
StopIteration out of next(), aborting the whole turn at that call: the
turn ends as .error stopIteration with only the pre-call appends
retained, and the boundary reports a generic 500 whose detail is
str(StopIteration()) = "" — remaining calls and steps are not run. -/
theorem unknown_tool_raises_aborting_turn (E : Engine) (conv : List Msg) (q : String)
    (pr : ParsedResponse) (tc : ToolCall) (rest : List ToolCall)
    (h0 : E.replies 0 = .ok pr) (htc : pr.tool_calls = tc :: rest)
    (hnf : E.tools.find? (fun t => t.name == tc.name) = none) :
    process_query E conv q = .error (.stopIteration,
      ⟨(conv ++ [Msg.roleMsg "user" (.str q)]) ++ contentAppend pr, respAfter pr []⟩) ∧
    (handleQuery E conv q).1 = .httpError 500 "" := by
  have hne : pr.tool_calls.isEmpty = false := by rw [htc]; rfl
  have hpq : process_query E conv q = .error (.stopIteration,
      ⟨(conv ++ [Msg.roleMsg "user" (.str q)]) ++ contentAppend pr, respAfter pr []⟩) := by
    have h4 : process_query E conv q
        = runLoop E (3 + 1) 0 ⟨conv ++ [Msg.roleMsg "user" (.str q)], []⟩ := rfl
    rw [h4, runLoop, h0]
    simp only [runStep_eq, hne, htc, Bool.false_eq_true, if_false]
    simp only [processToolCalls, processToolCall, hnf]
    rfl
  refine ⟨hpq, ?_⟩
  simp only [handleQuery, hpq]
  rfl

/-- Witness for unknown_tool_raises_aborting_turn on the concrete engine
whose first reply asks for the unknown tool nope before the known t1. -/
theorem unknown_tool_raises_aborting_turn_witness :
    process_query engC1 [] "hi" = .error (.stopIteration,
      ⟨([] ++ [Msg.roleMsg "user" (.str "hi")]) ++ contentAppend prC1, respAfter prC1 []⟩) ∧
    (handleQuery engC1 [] "hi").1 = .httpError 500 "" :=
  unknown_tool_raises_aborting_turn engC1 [] "hi" prC1 ⟨"nope", .nil⟩ [⟨"t1", .nil⟩]
    rfl rfl (by decide)

/-- C3 counterexample: the model client raises on the first step; the
caller gets a 500 as required, but the conversation entry is not left
unchanged: it grew from [] to hold the user message. -/
theorem store_changed_on_exception_counterexample :
    (handleQuery engC3 [] "hi").1 = .httpError 500 "boom" ∧
    (handleQuery engC3 [] "hi").2 = [Msg.roleMsg "user" (.str "hi")] ∧
    (handleQuery engC3 [] "hi").2 ≠ ([] : List Msg) := by
  decide

/-- C3 amended: any exception during a turn is caught at the request
boundary and reported as a single generic 500 response carrying str(e);
however the conversations entry is not rolled back — it retains every
append made before the raise, the pre-turn history plus the user
message remaining a prefix of the stored sequence. -/
theorem exception_reported_store_keeps_appends (E : Engine) (conv : List Msg)
    (q : String) (exc : PyExc) (st : LoopState)
    (h : process_query E conv q = .error (exc, st)) :
    (handleQuery E conv q).1 = .httpError 500 exc.detail ∧
    (conv ++ [Msg.roleMsg "user" (.str q)]) <+: (handleQuery E conv q).2 := by
  refine ⟨by simp only [handleQuery, h], ?_⟩
  simp only [handleQuery, h]
  exact (runLoop_messages E MAX_STEPS 0
    ⟨conv ++ [Msg.roleMsg "user" (.str q)], []⟩).2 exc st h

/-- Witness for exception_reported_store_keeps_appends on the concrete
engine whose model client raises boom. -/
theorem exception_reported_store_keeps_appends_witness :
    process_query engC3 [] "hi"
      = .error (.modelFailure "boom", ⟨[Msg.roleMsg "user" (.str "hi")], []⟩) ∧
    (handleQuery engC3 [] "hi").1 = .httpError 500 (PyExc.modelFailure "boom").detail ∧
    ([] ++ [Msg.roleMsg "user" (.str "hi")]) <+: (handleQuery engC3 [] "hi").2 := by
  have h : process_query engC3 [] "hi"
      = .error (.modelFailure "boom", ⟨[Msg.roleMsg "user" (.str "hi")], []⟩) := rfl
  have h2 := exception_reported_store_keeps_appends engC3 [] "hi" _ _ h
  exact ⟨h, h2.1, h2.2⟩

/-- C10: for a resolvable tool call, the drive_share link synthesis fires
exactly when the argument payload holds the key fileId: then one
clickable-link response entry and one role-assistant link message built
from that fileId are appended besides the invocation note and the tool
result message; otherwise (name not drive_share, or fileId absent even
with the name matching) only the invocation note and the tool result
message are appended. -/
theorem drive_share_link_iff (E : Engine) (st : LoopState) (tc : ToolCall)
    (ti : ToolDict)
    (hfind : E.tools.find? (fun t => t.name == tc.name) = some ti) :
    (∀ fid, tc.name = "drive_share" → lookupD tc.input "fileId" = some fid →
        processToolCall E st tc = .ok
          ⟨st.messages ++ [Msg.roleMsg "assistant" (.str (driveLink fid)),
              E.parseTR tc (execute_tool E.sessions E.call ti.server tc.name tc.input)],
            st.responses ++ [callNote tc,
              "[Click to view file](" ++ driveLink fid ++ ")"]⟩) ∧
    ((tc.name = "drive_share" → lookupD tc.input "fileId" = none) →
        processToolCall E st tc = .ok
          ⟨st.messages ++
              [E.parseTR tc (execute_tool E.sessions E.call ti.server tc.name tc.input)],
            st.responses ++ [callNote tc]⟩) := by
  constructor
  · intro fid hn hfid
    unfold processToolCall
    rw [hfind]
    simp only [hn, hfid]
    simp
  · intro hno
    unfold processToolCall
    rw [hfind]
    by_cases hn : tc.name = "drive_share"
    · have hfid := hno hn
      simp only [hn, hfid]
      simp
    · have hb : (tc.name == "drive_share") = false := by
        simp [hn]
      simp only [hb]
      simp

/-- Witness for drive_share_link_iff: both branches at concrete calls —
with a fileId argument the link entries appear, without it they do not. -/
theorem drive_share_link_iff_witness :
    engC10.tools.find? (fun t => t.name == tcFid.name) = some tdShare ∧
    processToolCall engC10 ⟨[], []⟩ tcFid = .ok
      ⟨[Msg.roleMsg "assistant" (.str (driveLink (.str "F1"))),
          engC10.parseTR tcFid
            (execute_tool engC10.sessions engC10.call tdShare.server tcFid.name tcFid.input)],
        [callNote tcFid, "[Click to view file](" ++ driveLink (.str "F1") ++ ")"]⟩ ∧
    processToolCall engC10 ⟨[], []⟩ tcNoFid = .ok
      ⟨[engC10.parseTR tcNoFid
            (execute_tool engC10.sessions engC10.call tdShare.server tcNoFid.name tcNoFid.input)],
        [callNote tcNoFid]⟩ := by
  have h1 := (drive_share_link_iff engC10 ⟨[], []⟩ tcFid tdShare rfl).1 (.str "F1") rfl rfl
  have h2 := (drive_share_link_iff engC10 ⟨[], []⟩ tcNoFid tdShare rfl).2 (fun _ => rfl)
  exact ⟨rfl, h1, h2⟩
